import Mathlib

/-!
Verification of the Beehive iterative research system.

Each Python component the claims refer to is shallowly embedded as an
executable Lean definition, translated from the corresponding source file.
Python dictionaries become structures, floats become exact rationals (ℚ),
fallible calls become explicit `Except` values or oracle parameters, and
exceptions handled by `try/except` blocks become branches on those values.
-/

/-- Split a character sequence at every separator character, keeping empty
pieces, exactly as Python `re.split` / `str.split(sep)` do.  Python strings
are character sequences, so the embedding works on `List Char`. -/
def splitChars (p : Char → Bool) : List Char → List (List Char)
  | [] => [[]]
  | c :: rest =>
    if p c then [] :: splitChars p rest
    else
      match splitChars p rest with
      | [] => [[c]]
      | w :: ws => (c :: w) :: ws

/-- Words of a Python string: lowercased, split on whitespace, empty pieces
dropped.  Models the Python expression `s.lower().split()`. -/
def pyWords (s : String) : List String :=
  ((splitChars Char.isWhitespace (s.toList.map Char.toLower)).map
    (fun cs => String.mk cs)).filter (fun w => w ≠ "")

/-- The word set of a string: models Python `set(s.lower().split())`. -/
def pyWordSet (s : String) : Finset String :=
  (pyWords s).toFinset

/-- Remove leading and trailing whitespace characters. -/
def trimChars (cs : List Char) : List Char :=
  ((cs.dropWhile Char.isWhitespace).reverse.dropWhile Char.isWhitespace).reverse

/-- Models Python `s.strip()`. -/
def pyStrip (s : String) : String := String.mk (trimChars s.toList)

/-- Insert `a` into a list that is sorted descending by `key`, after every
element whose key is `≥ key a`.  Building block of the stable descending
sort that models Python `list.sort(key=..., reverse=True)`. -/
def insertDescBy {α : Type} (key : α → ℚ) (a : α) : List α → List α
  | [] => [a]
  | b :: l => if key b < key a then a :: b :: l else b :: insertDescBy key a l

/-- Stable sort, descending by `key`: models Python
`list.sort(key=..., reverse=True)` (Timsort is stable; elements with equal
keys keep their relative order). -/
def sortDescBy {α : Type} (key : α → ℚ) (l : List α) : List α :=
  l.foldl (fun acc a => insertDescBy key a acc) []

theorem mem_insertDescBy {α : Type} (key : α → ℚ) (a x : α) (l : List α) :
    x ∈ insertDescBy key a l ↔ x = a ∨ x ∈ l := by
  induction l with
  | nil => simp [insertDescBy]
  | cons b t ih =>
    by_cases h : key b < key a
    · simp [insertDescBy, h]
    · simp only [insertDescBy, if_neg h, List.mem_cons, ih]
      tauto

theorem pairwise_insertDescBy {α : Type} (key : α → ℚ) (a : α) (l : List α)
    (h : l.Pairwise (fun x y => key y ≤ key x)) :
    (insertDescBy key a l).Pairwise (fun x y => key y ≤ key x) := by
  induction l with
  | nil => simp [insertDescBy]
  | cons b t ih =>
    rcases List.pairwise_cons.mp h with ⟨hb, ht⟩
    by_cases hlt : key b < key a
    · rw [insertDescBy, if_pos hlt]
      refine List.pairwise_cons.mpr ⟨?_, h⟩
      intro y hy
      rcases List.mem_cons.mp hy with rfl | hy
      · exact le_of_lt hlt
      · exact le_trans (hb y hy) (le_of_lt hlt)
    · rw [insertDescBy, if_neg hlt]
      refine List.pairwise_cons.mpr ⟨?_, ih ht⟩
      intro y hy
      rcases (mem_insertDescBy key a y t).mp hy with rfl | hy
      · exact le_of_not_lt hlt
      · exact hb y hy

theorem pairwise_sortDescBy {α : Type} (key : α → ℚ) (l : List α) :
    (sortDescBy key l).Pairwise (fun x y => key y ≤ key x) := by
  suffices h : ∀ acc : List α, acc.Pairwise (fun x y => key y ≤ key x) →
      (l.foldl (fun acc a => insertDescBy key a acc) acc).Pairwise
        (fun x y => key y ≤ key x) by
    exact h [] (by simp)
  induction l with
  | nil => intro acc hacc; simpa using hacc
  | cons b t ih =>
    intro acc hacc
    exact ih _ (pairwise_insertDescBy key b acc hacc)

theorem mem_sortDescBy {α : Type} (key : α → ℚ) (l : List α) (x : α) :
    x ∈ sortDescBy key l ↔ x ∈ l := by
  suffices h : ∀ acc : List α,
      (x ∈ l.foldl (fun acc a => insertDescBy key a acc) acc ↔ x ∈ acc ∨ x ∈ l) by
    simpa using h []
  induction l with
  | nil => intro acc; simp
  | cons b t ih =>
    intro acc
    simp only [List.foldl_cons, ih, mem_insertDescBy, List.mem_cons]
    tauto

/-!
## C1 — Retrieval routing policy (knowledge base vs. web search)

Modelled from the spec: the routing decision point described in spec §4.3
(query the internal retrieval engine first; accept and rerank when the
maximum candidate score reaches the confidence threshold 0.7, otherwise
flag the subquery for external web search) is not present in the source
snapshot under `src/` — `src/tools/search_tool.py` always applies
reranking and never consults a threshold, and `src/config.py` holds no
such constant.  The definitions below model the missing routing component
from the spec's words.
-/

namespace Routing

/-- Modelled from the spec: "the threshold value is a named configuration
constant, not derived" (spec §4.3). -/
def CONFIDENCE_THRESHOLD : ℚ := 0.7

structure RouteDecision where
  use_knowledge_base : Bool
  apply_rerank : Bool
  needs_web_search : Bool
deriving Repr, DecidableEq

/-- Maximum score of a candidate set (scores live in [0,1], so folding
from 0 returns the maximum on any non-empty set). -/
def maxCandidateScore (scores : List ℚ) : ℚ := scores.foldl max 0

/-- Modelled from the spec: "If the maximum candidate score ≥ a confidence
threshold (0.7), accept the internal result and apply reranking; otherwise
flag the subquery as requiring external (web) search" (spec §4.3). -/
def routeSubquery (scores : List ℚ) : RouteDecision :=
  if CONFIDENCE_THRESHOLD ≤ maxCandidateScore scores then
    { use_knowledge_base := true, apply_rerank := true, needs_web_search := false }
  else
    { use_knowledge_base := false, apply_rerank := false, needs_web_search := true }

end Routing

/-- C1: the routing decision accepts the internal result (with reranking)
exactly when the maximum candidate score reaches the 0.7 confidence
threshold, flags web search otherwise; max score 0.69 routes to web search,
0.70 routes to the knowledge base; the threshold is the named constant
`CONFIDENCE_THRESHOLD = 7/10`. -/
theorem routing_threshold_claim :
    (∀ scores : List ℚ,
      (Routing.routeSubquery scores).use_knowledge_base = true ↔
        Routing.CONFIDENCE_THRESHOLD ≤ Routing.maxCandidateScore scores) ∧
    (∀ scores : List ℚ,
      (Routing.routeSubquery scores).use_knowledge_base = true →
        (Routing.routeSubquery scores).apply_rerank = true) ∧
    (∀ scores : List ℚ,
      (Routing.routeSubquery scores).use_knowledge_base = false →
        (Routing.routeSubquery scores).needs_web_search = true) ∧
    (Routing.routeSubquery [0.69]).use_knowledge_base = false ∧
    (Routing.routeSubquery [0.70]).use_knowledge_base = true ∧
    Routing.CONFIDENCE_THRESHOLD = 7 / 10 := by
  have h69 : ¬ Routing.CONFIDENCE_THRESHOLD ≤ Routing.maxCandidateScore [0.69] := by
    simp only [Routing.maxCandidateScore, List.foldl_cons, List.foldl_nil]
    rw [max_eq_right (by norm_num)]
    norm_num [Routing.CONFIDENCE_THRESHOLD]
  have h70 : Routing.CONFIDENCE_THRESHOLD ≤ Routing.maxCandidateScore [0.70] := by
    simp only [Routing.maxCandidateScore, List.foldl_cons, List.foldl_nil]
    rw [max_eq_right (by norm_num)]
    norm_num [Routing.CONFIDENCE_THRESHOLD]
  refine ⟨?_, ?_, ?_,
    by unfold Routing.routeSubquery; rw [if_neg h69],
    by unfold Routing.routeSubquery; rw [if_pos h70],
    by norm_num [Routing.CONFIDENCE_THRESHOLD]⟩
  · intro scores
    unfold Routing.routeSubquery
    by_cases h : Routing.CONFIDENCE_THRESHOLD ≤ Routing.maxCandidateScore scores
    · simp [h]
    · simp [h]
  · intro scores
    unfold Routing.routeSubquery
    by_cases h : Routing.CONFIDENCE_THRESHOLD ≤ Routing.maxCandidateScore scores
    · simp [h]
    · simp [h]
  · intro scores
    unfold Routing.routeSubquery
    by_cases h : Routing.CONFIDENCE_THRESHOLD ≤ Routing.maxCandidateScore scores
    · simp [h]
    · simp [h]

/-- Witness for C1: at the concrete candidate set `[0.7]` the routing
accepts the knowledge base and applies reranking. -/
theorem routing_threshold_claim_witness :
    (Routing.routeSubquery [0.7]).use_knowledge_base = true ∧
    (Routing.routeSubquery [0.7]).apply_rerank = true := by
  have h := routing_threshold_claim
  exact ⟨(h.1 [0.7]).mpr (by norm_num [Routing.maxCandidateScore,
      Routing.CONFIDENCE_THRESHOLD]),
    h.2.1 [0.7] ((h.1 [0.7]).mpr (by norm_num [Routing.maxCandidateScore,
      Routing.CONFIDENCE_THRESHOLD]))⟩

/-!
## C4 — Citation deduplication

Embedding of `src/citation/citation_manager.py`,
`CitationManager.remove_duplicate_citations` (lines 378-401).  A citation
dict carries `id`, `source`, `content`, `title` (plus payload fields that
the dedup pass never reads); the manager state carries the citation list,
the id→citation map and the id counter.
-/

namespace CitationManager

structure Citation where
  id : String
  source : String
  content : String
  title : String
deriving Repr, DecidableEq

structure CMState where
  citations : List Citation
  citation_map : List (String × Citation)
  next_citation_id : ℕ
deriving Repr, DecidableEq

/-- The loop of `remove_duplicate_citations`: walk the citation list with a
`seen_sources` set, keep a citation whose source is unseen, count the
removed ones.  Returns `(unique_citations, removed_count)`. -/
def dedupAux (seen : List String) : List Citation → List Citation × ℕ
  | [] => ([], 0)
  | c :: rest =>
    if c.source ∈ seen then
      let p := dedupAux seen rest
      (p.1, p.2 + 1)
    else
      let p := dedupAux (c.source :: seen) rest
      (c :: p.1, p.2)

/-- Models `CitationManager.remove_duplicate_citations`: dedup by source keeping
first occurrences, rebuild `citation_map` from the remaining citations,
return the new state and the removed count. -/
def remove_duplicate_citations (st : CMState) : CMState × ℕ :=
  let p := dedupAux [] st.citations
  ({ citations := p.1,
     citation_map := p.1.map (fun c => (c.id, c)),
     next_citation_id := st.next_citation_id }, p.2)

theorem dedupAux_sublist (seen : List String) (cs : List Citation) :
    (dedupAux seen cs).1.Sublist cs := by
  induction cs generalizing seen with
  | nil => simp [dedupAux]
  | cons c rest ih =>
    by_cases h : c.source ∈ seen
    · simp only [dedupAux, if_pos h]
      exact (ih seen).cons c
    · simp only [dedupAux, if_neg h]
      exact (ih (c.source :: seen)).cons₂ c

theorem dedupAux_length (seen : List String) (cs : List Citation) :
    (dedupAux seen cs).1.length + (dedupAux seen cs).2 = cs.length := by
  induction cs generalizing seen with
  | nil => simp [dedupAux]
  | cons c rest ih =>
    by_cases h : c.source ∈ seen
    · simp only [dedupAux, if_pos h, List.length_cons]
      rw [← Nat.add_assoc, ih seen]
    · simp only [dedupAux, if_neg h, List.length_cons]
      rw [Nat.add_right_comm, ih (c.source :: seen)]

theorem dedupAux_not_seen (seen : List String) (cs : List Citation) :
    ∀ c ∈ (dedupAux seen cs).1, c.source ∉ seen := by
  induction cs generalizing seen with
  | nil => simp [dedupAux]
  | cons c rest ih =>
    by_cases h : c.source ∈ seen
    · simp only [dedupAux, if_pos h]
      exact ih seen
    · simp only [dedupAux, if_neg h]
      intro d hd
      rcases List.mem_cons.mp hd with rfl | hd
      · exact h
      · have := ih (c.source :: seen) d hd
        exact fun hmem => this (List.mem_cons_of_mem _ hmem)

theorem dedupAux_sources_nodup (seen : List String) (cs : List Citation) :
    ((dedupAux seen cs).1.map (fun c => c.source)).Nodup := by
  induction cs generalizing seen with
  | nil => simp [dedupAux]
  | cons c rest ih =>
    by_cases h : c.source ∈ seen
    · simp only [dedupAux, if_pos h]
      exact ih seen
    · simp only [dedupAux, if_neg h, List.map_cons, List.nodup_cons]
      refine ⟨?_, ih (c.source :: seen)⟩
      intro hmem
      rcases List.mem_map.mp hmem with ⟨d, hd, hds⟩
      exact dedupAux_not_seen (c.source :: seen) rest d hd
        (by rw [hds]; exact List.mem_cons_self _ _)

theorem dedupAux_keeps_first (seen : List String) (cs : List Citation) :
    ∀ c ∈ cs, c.source ∉ seen →
      ∃ c', c' ∈ (dedupAux seen cs).1 ∧
        cs.find? (fun x => x.source == c.source) = some c' := by
  induction cs generalizing seen with
  | nil => simp
  | cons b rest ih =>
    intro c hc hcseen
    by_cases hb : b.source ∈ seen
    · have hne : b.source ≠ c.source := fun he => hcseen (he ▸ hb)
      have hcrest : c ∈ rest := by
        rcases List.mem_cons.mp hc with rfl | h
        · exact absurd hb hcseen
        · exact h
      rcases ih seen c hcrest hcseen with ⟨c', hc1, hc2⟩
      refine ⟨c', ?_, ?_⟩
      · simp only [dedupAux, if_pos hb]; exact hc1
      · rw [List.find?_cons_of_neg, hc2]
        simp [hne]
    · by_cases hbc : b.source = c.source
      · refine ⟨b, ?_, ?_⟩
        · simp [dedupAux, if_neg hb]
        · rw [List.find?_cons_of_pos]
          simp [hbc]
      · have hcrest : c ∈ rest := by
          rcases List.mem_cons.mp hc with rfl | h
          · exact absurd rfl hbc
          · exact h
        have hcseen2 : c.source ∉ b.source :: seen := by
          intro h
          rcases List.mem_cons.mp h with h | h
          · exact hbc h.symm
          · exact hcseen h
        rcases ih (b.source :: seen) c hcrest hcseen2 with ⟨c', hc1, hc2⟩
        refine ⟨c', ?_, ?_⟩
        · simp only [dedupAux, if_neg hb]
          exact List.mem_cons_of_mem _ hc1
        · rw [List.find?_cons_of_neg, hc2]
          simp [hbc]

theorem dedupAux_of_nodup (seen : List String) (cs : List Citation)
    (hnd : (cs.map (fun c => c.source)).Nodup)
    (hseen : ∀ c ∈ cs, c.source ∉ seen) :
    dedupAux seen cs = (cs, 0) := by
  induction cs generalizing seen with
  | nil => simp [dedupAux]
  | cons c rest ih =>
    have hc : c.source ∉ seen := hseen c (List.mem_cons_self _ _)
    simp only [dedupAux, if_neg hc]
    rw [List.map_cons, List.nodup_cons] at hnd
    have : dedupAux (c.source :: seen) rest = (rest, 0) := by
      refine ih (c.source :: seen) hnd.2 ?_
      intro d hd hmem
      rcases List.mem_cons.mp hmem with h | h
      · exact hnd.1 (List.mem_map.mpr ⟨d, hd, h⟩)
      · exact hseen d (List.mem_cons_of_mem _ hd) h
    rw [this]

end CitationManager

/-- C4: `remove_duplicate_citations` keeps an order-preserving
subsequence of the citations whose sources are pairwise distinct, keeps
for every source exactly its first occurrence, removes as many citations
as the length difference, rebuilds the id→citation index from the
remaining citations, and is idempotent (a second run removes nothing). -/
theorem remove_duplicate_citations_claim (st : CitationManager.CMState) :
    (CitationManager.remove_duplicate_citations st).1.citations.Sublist st.citations ∧
    (((CitationManager.remove_duplicate_citations st).1.citations.map
        (fun c => c.source)).Nodup) ∧
    (∀ c ∈ st.citations,
      ∃ c', c' ∈ (CitationManager.remove_duplicate_citations st).1.citations ∧
        st.citations.find? (fun x => x.source == c.source) = some c') ∧
    ((CitationManager.remove_duplicate_citations st).1.citations.length +
        (CitationManager.remove_duplicate_citations st).2 = st.citations.length) ∧
    ((CitationManager.remove_duplicate_citations st).1.citation_map =
      (CitationManager.remove_duplicate_citations st).1.citations.map
        (fun c => (c.id, c))) ∧
    CitationManager.remove_duplicate_citations
        (CitationManager.remove_duplicate_citations st).1 =
      ((CitationManager.remove_duplicate_citations st).1, 0) := by
  refine ⟨CitationManager.dedupAux_sublist [] st.citations,
    CitationManager.dedupAux_sources_nodup [] st.citations, ?_,
    CitationManager.dedupAux_length [] st.citations, rfl, ?_⟩
  · intro c hc
    exact CitationManager.dedupAux_keeps_first [] st.citations c hc
      (List.not_mem_nil _)
  · unfold CitationManager.remove_duplicate_citations
    rw [CitationManager.dedupAux_of_nodup []
      (CitationManager.dedupAux [] st.citations).1
      (CitationManager.dedupAux_sources_nodup [] st.citations)
      (fun c _ => List.not_mem_nil _)]

/-- Witness for C4: on a concrete manager holding two citations with the
same source, the kept citation for that source is the first one. -/
theorem remove_duplicate_citations_claim_witness :
    ∃ c', c' ∈ (CitationManager.remove_duplicate_citations
        ⟨[⟨"cite_1", "s", "a", ""⟩, ⟨"cite_2", "s", "b", ""⟩],
          [("cite_1", ⟨"cite_1", "s", "a", ""⟩),
           ("cite_2", ⟨"cite_2", "s", "b", ""⟩)], 3⟩).1.citations ∧
      ([⟨"cite_1", "s", "a", ""⟩, ⟨"cite_2", "s", "b", ""⟩] :
          List CitationManager.Citation).find?
        (fun x => x.source == (⟨"cite_2", "s", "b", ""⟩ :
          CitationManager.Citation).source) = some c' :=
  (remove_duplicate_citations_claim
    ⟨[⟨"cite_1", "s", "a", ""⟩, ⟨"cite_2", "s", "b", ""⟩],
      [("cite_1", ⟨"cite_1", "s", "a", ""⟩),
       ("cite_2", ⟨"cite_2", "s", "b", ""⟩)], 3⟩).2.2.1
    ⟨"cite_2", "s", "b", ""⟩ (by simp)

/-!
## Python result dictionaries

Search results and documents flow through the pipeline as Python dicts
with a fixed set of keys (`id`, `content`, `title`, `source`, `score`,
optional `error`, plus annotation keys added by the reranker and the
hybrid combiner).  They are embedded as one record; keys that a dict has
not (yet) been given are `none` / `false`.
-/

structure PyDoc where
  id : String
  content : String
  title : String
  source : String
  score : ℚ
  error : Bool
  rerank_score : Option ℚ
  original_score : Option ℚ
  semantic_score : Option ℚ
  keyword_score : Option ℚ
deriving Repr, DecidableEq

/-- A plain retrieval result dict: no error flag, no annotations. -/
def mkDoc (id content title source : String) (score : ℚ) : PyDoc :=
  ⟨id, content, title, source, score, false, none, none, none, none⟩

/-!
## C5 — Sentence-to-citation attribution

Embedding of `CitationManager._smart_insert_citations` (lines 259-294) and
`CitationManager._find_best_citation_match` (lines 296-329) of
`src/citation/citation_manager.py`, together with their caller
`insert_citations_in_text` (lines 231-257).
-/

namespace CitationManager

/-- Overlap score of one search result against a sentence word set:
`len(sentence_words & content_words) + len(sentence_words & title_words) * 2`. -/
def match_score (sw : Finset String) (r : PyDoc) : ℕ :=
  (sw ∩ pyWordSet r.content).card + (sw ∩ pyWordSet r.title).card * 2

/-- The best-match fold of `_find_best_citation_match`: running
`(best_score, best_idx)` over `enumerate(search_results)`, updating on a
strictly greater score. -/
def bestFold (sw : Finset String) (results : List PyDoc) : ℕ × Option ℕ :=
  results.enum.foldl
    (fun b p => if b.1 < match_score sw p.2 then (match_score sw p.2, some p.1) else b)
    (0, none)

/-- Models `_find_best_citation_match`: the best index, provided the best score
reaches the minimum-evidence threshold 2; `None` otherwise. -/
def find_best_citation_match (sentence : String) (results : List PyDoc) : Option ℕ :=
  if 2 ≤ (bestFold (pyWordSet sentence) results).1 then
    (bestFold (pyWordSet sentence) results).2
  else none

/-- Models `re.split(r'[。！？]', text)` of `_smart_insert_citations`. -/
def split_sentences (text : String) : List String :=
  (splitChars (fun c => c == '。' || c == '！' || c == '？') text.toList).map
    (fun cs => String.mk cs)

/-- The per-sentence body of the `_smart_insert_citations` loop: append
`[N]。` for the best matching result (whose citation id is
`cite_(next_id + i)`), else just restore the sentence terminator. -/
def sentence_piece (results : List PyDoc) (next_id : ℕ) (s : String) : String :=
  match find_best_citation_match s results with
  | some i => pyStrip s ++ "[" ++ toString (next_id + i) ++ "]。"
  | none => pyStrip s ++ "。"

/-- Models `_smart_insert_citations`: split into sentences, skip whitespace-only
ones, attribute each remaining sentence, join the enhanced sentences. -/
def smart_insert_citations (text : String) (results : List PyDoc)
    (next_id : ℕ) : String :=
  String.join (((split_sentences text).filter (fun s => pyStrip s ≠ "")).map
    (sentence_piece results next_id))

/-- Models `CitationManager.add_citation`: assign `cite_<next id>`, append the
citation, extend the map, bump the counter. -/
def add_citation (st : CMState) (source content title : String) :
    String × CMState :=
  let cid := "cite_" ++ toString st.next_citation_id
  (cid,
   { citations := st.citations ++ [⟨cid, source, content, title⟩],
     citation_map := st.citation_map ++ [(cid, ⟨cid, source, content, title⟩)],
     next_citation_id := st.next_citation_id + 1 })

/-- Models `insert_citations_in_text`: register a citation for every search
result (content truncated to 200 characters plus an ellipsis), then run
the smart insertion against the pre-call id counter. -/
def insert_citations_in_text (st : CMState) (text : String)
    (results : List PyDoc) : String × CMState :=
  (smart_insert_citations text results st.next_citation_id,
   results.foldl
     (fun acc r =>
       (add_citation acc r.source (String.mk (r.content.toList.take 200) ++ "...")
         r.title).2)
     st)

end CitationManager

/-- C5: every attributed sentence gets exactly its stripped text plus one
suffix, and that suffix carries one citation marker `[N]` exactly when the
best lexical-overlap score (body weight 1, title weight 2) reaches 2,
nothing otherwise; a best score below 2 attributes nothing; the full
insertion is the join of the per-sentence pieces over the non-blank
sentences, and the candidates themselves are only read, never written
(the returned state touches only the citation store). -/
theorem attribution_claim (text : String) (results : List PyDoc) (next_id : ℕ) :
    (∀ s ∈ CitationManager.split_sentences text, pyStrip s ≠ "" →
      ∃ suffix,
        CitationManager.sentence_piece results next_id s = pyStrip s ++ suffix ∧
        ((CitationManager.find_best_citation_match s results = none ∧
            suffix = "。") ∨
         (∃ i, CitationManager.find_best_citation_match s results = some i ∧
            2 ≤ (CitationManager.bestFold (pyWordSet s) results).1 ∧
            suffix = "[" ++ toString (next_id + i) ++ "]。"))) ∧
    (∀ s : String, (CitationManager.bestFold (pyWordSet s) results).1 < 2 →
      CitationManager.find_best_citation_match s results = none) ∧
    (∀ st : CitationManager.CMState,
      (CitationManager.insert_citations_in_text st text results).1 =
        CitationManager.smart_insert_citations text results
          st.next_citation_id) := by
  refine ⟨?_, ?_, fun st => rfl⟩
  · intro s _ _
    cases h : CitationManager.find_best_citation_match s results with
    | none =>
      exact ⟨"。", by simp [CitationManager.sentence_piece, h], Or.inl ⟨rfl, rfl⟩⟩
    | some i =>
      have hscore : 2 ≤ (CitationManager.bestFold (pyWordSet s) results).1 := by
        by_contra hlt
        rw [CitationManager.find_best_citation_match, if_neg hlt] at h
        exact Option.noConfusion h
      exact ⟨"[" ++ toString (next_id + i) ++ "]。",
        by simp [CitationManager.sentence_piece, h, String.append_assoc],
        Or.inr ⟨i, rfl, hscore, rfl⟩⟩
  · intro s hlt
    rw [CitationManager.find_best_citation_match, if_neg (not_le.mpr hlt)]

/-- Witness for C5: on the sentence "alpha beta gamma" against one
candidate whose body shares two words, attribution appends exactly one
marker. -/
theorem attribution_claim_witness :
    ∃ suffix,
      CitationManager.sentence_piece [mkDoc "d1" "alpha beta" "" "src" 1] 1
          "alpha beta gamma" = pyStrip "alpha beta gamma" ++ suffix ∧
      ((CitationManager.find_best_citation_match "alpha beta gamma"
            [mkDoc "d1" "alpha beta" "" "src" 1] = none ∧ suffix = "。") ∨
       (∃ i, CitationManager.find_best_citation_match "alpha beta gamma"
            [mkDoc "d1" "alpha beta" "" "src" 1] = some i ∧
          2 ≤ (CitationManager.bestFold (pyWordSet "alpha beta gamma")
            [mkDoc "d1" "alpha beta" "" "src" 1]).1 ∧
          suffix = "[" ++ toString (1 + i) ++ "]。")) :=
  (attribution_claim "alpha beta gamma。" [mkDoc "d1" "alpha beta" "" "src" 1]
      1).1 "alpha beta gamma" (by decide) (by decide)

/-!
## C6 — Memory recall relevance

Embedding of `MemoryManager._calculate_memory_relevance` (lines 160-196)
and `MemoryManager.search_memory` (lines 131-158) of
`src/memory/memory_manager.py`.  The wall clock and ISO-timestamp parsing
of `datetime.fromisoformat` are abstracted into an `age_of` oracle giving
the age in whole days (`(datetime.now() - entry_time).days`); a `none`
result models the `except: pass` branch around the parse.
-/

namespace MemoryManager

structure MemoryEntry where
  id : String
  timestamp : String
  query : String
  context : String
  final_answer : String
deriving Repr, DecidableEq

/-- The linear time decay `max(0.1, 1.0 - time_diff / 30)`. -/
def time_weight (days : ℤ) : ℚ :=
  max 0.1 (1 - (days : ℚ) / 30)

/-- The pre-decay part of the relevance score:
`query_match * 0.4 + answer_match * 0.3`, each match being the overlap
ratio against the query word set (0 when the query has no words). -/
def memory_base_score (entry : MemoryEntry) (query_words : Finset String) : ℚ :=
  (if query_words.Nonempty then
      ((query_words ∩ pyWordSet entry.query).card : ℚ) / query_words.card
    else 0) * 0.4 +
  (if query_words.Nonempty then
      ((query_words ∩ pyWordSet entry.final_answer).card : ℚ) / query_words.card
    else 0) * 0.3

/-- Models `_calculate_memory_relevance`: base score, multiplied by the time
decay when the timestamp parses, multiplied by 1.2 when the stored answer
is longer than 20 characters. -/
def calculate_memory_relevance (age_of : String → Option ℤ)
    (entry : MemoryEntry) (query_words : Finset String) : ℚ :=
  let s1 := memory_base_score entry query_words
  let s2 :=
    match age_of entry.timestamp with
    | some d => s1 * time_weight d
    | none => s1
  if 20 < entry.final_answer.length then s2 * 1.2 else s2

/-- The scored, filtered, descending-sorted entry list built by
`search_memory` before the `[:limit]` cut. -/
def scored_memory (age_of : String → Option ℤ) (entries : List MemoryEntry)
    (query : String) : List (MemoryEntry × ℚ) :=
  sortDescBy (fun p => p.2)
    (entries.filterMap (fun e =>
      if 0 < calculate_memory_relevance age_of e (pyWordSet query) then
        some (e, calculate_memory_relevance age_of e (pyWordSet query))
      else none))

/-- Models `search_memory`: the top `limit` entries of the scored list. -/
def search_memory (age_of : String → Option ℤ) (entries : List MemoryEntry)
    (query : String) (limit : ℕ) : List MemoryEntry :=
  ((scored_memory age_of entries query).take limit).map (fun p => p.1)

end MemoryManager

/-- C6: the recall score is the 0.4/0.3-weighted overlap base, multiplied
by the linear time-decay weight (1.0 at age 0, hard floor 0.1 from day 30
on) and by 1.2 for answers longer than 20 characters; zero-scored entries
are excluded and the result is sorted descending by score, so of two
entries with identical overlap base at ages 0 and 40 days the fresh one
scores strictly higher. -/
theorem memory_relevance_claim (age_of : String → Option ℤ)
    (e0 e40 : MemoryManager.MemoryEntry) (qw : Finset String)
    (h0 : age_of e0.timestamp = some 0)
    (h40 : age_of e40.timestamp = some 40)
    (hbase : MemoryManager.memory_base_score e0 qw =
      MemoryManager.memory_base_score e40 qw)
    (hpos : 0 < MemoryManager.memory_base_score e0 qw) :
    MemoryManager.calculate_memory_relevance age_of e40 qw <
      MemoryManager.calculate_memory_relevance age_of e0 qw ∧
    MemoryManager.time_weight 0 = 1 ∧
    (∀ d : ℤ, 30 ≤ d → MemoryManager.time_weight d = 1 / 10) ∧
    (∀ entries q, ∀ p ∈ MemoryManager.scored_memory age_of entries q, 0 < p.2) ∧
    (∀ entries q, (MemoryManager.scored_memory age_of entries q).Pairwise
      (fun a b => b.2 ≤ a.2)) ∧
    (∀ entries q limit, MemoryManager.search_memory age_of entries q limit =
      ((MemoryManager.scored_memory age_of entries q).take limit).map
        (fun p => p.1)) ∧
    (∀ e : MemoryManager.MemoryEntry,
      MemoryManager.calculate_memory_relevance age_of e qw =
        (match age_of e.timestamp with
          | some d => MemoryManager.memory_base_score e qw *
              MemoryManager.time_weight d
          | none => MemoryManager.memory_base_score e qw) *
        (if 20 < e.final_answer.length then 1.2 else 1)) := by
  have htw0 : MemoryManager.time_weight 0 = 1 := by
    rw [MemoryManager.time_weight]
    rw [max_eq_right (by norm_num)]
    norm_num
  have htwfloor : ∀ d : ℤ, 30 ≤ d → MemoryManager.time_weight d = 1 / 10 := by
    intro d hd
    have hcast : (30 : ℚ) ≤ (d : ℚ) := by exact_mod_cast hd
    have hdiv : (1 : ℚ) ≤ (d : ℚ) / 30 := (le_div_iff₀ (by norm_num)).mpr (by linarith)
    rw [MemoryManager.time_weight, max_eq_left (by norm_num; linarith)]
    norm_num
  refine ⟨?_, htw0, htwfloor, ?_, ?_, fun entries q limit => rfl, ?_⟩
  · have htw40 : MemoryManager.time_weight 40 = 1 / 10 := htwfloor 40 (by norm_num)
    simp only [MemoryManager.calculate_memory_relevance, h0, h40, htw0, htw40,
      ← hbase]
    split_ifs <;> (ring_nf; nlinarith [hpos])
  · intro entries q p hp
    rw [MemoryManager.scored_memory, mem_sortDescBy] at hp
    rcases List.mem_filterMap.mp hp with ⟨e, _, hfe⟩
    by_cases hc : 0 < MemoryManager.calculate_memory_relevance age_of e
        (pyWordSet q)
    · rw [if_pos hc] at hfe
      cases hfe
      exact hc
    · rw [if_neg hc] at hfe
      exact Option.noConfusion hfe
  · intro entries q
    exact pairwise_sortDescBy _ _
  · intro e
    rw [MemoryManager.calculate_memory_relevance]
    cases hage : age_of e.timestamp with
    | none => split_ifs <;> ring
    | some d => split_ifs <;> ring

/-- Witness for C6: two concrete entries with the same one-word overlap,
aged 0 and 40 days, where the fresh entry strictly outranks the stale one. -/
theorem memory_relevance_claim_witness :
    MemoryManager.calculate_memory_relevance
        (fun s => if s = "t0" then some 0 else some 40)
        ⟨"e40", "t40", "ai", "", ""⟩ (pyWordSet "ai") <
      MemoryManager.calculate_memory_relevance
        (fun s => if s = "t0" then some 0 else some 40)
        ⟨"e0", "t0", "ai", "", ""⟩ (pyWordSet "ai") := by
  have hne : (pyWordSet "ai").Nonempty := by decide
  have hq : ((pyWordSet "ai") ∩ pyWordSet "ai").card = 1 := by decide
  have ha : ((pyWordSet "ai") ∩ pyWordSet "").card = 0 := by decide
  have hcard : (pyWordSet "ai").card = 1 := by decide
  have hpos : 0 < MemoryManager.memory_base_score ⟨"e0", "t0", "ai", "", ""⟩
      (pyWordSet "ai") := by
    rw [MemoryManager.memory_base_score]
    simp only [hne, if_pos, hq, ha, hcard]
    norm_num
  exact (memory_relevance_claim (fun s => if s = "t0" then some 0 else some 40)
    ⟨"e0", "t0", "ai", "", ""⟩ ⟨"e40", "t40", "ai", "", ""⟩ (pyWordSet "ai")
    (by decide) (by decide) rfl hpos).1

/-!
## C7 — Hybrid search result combination

Embedding of `VectorRetriever._combine_search_results` (lines 391-434) of
`src/retriever/retriever.py`.  The two dict comprehensions keep, per id,
the last occurrence; `set(semantic_map.keys()) | set(keyword_map.keys())`
is iterated in an order CPython leaves unspecified (hash order), so the
iteration order is an explicit parameter `ids`, constrained to enumerate
the union of the two key sets exactly once.
-/

namespace VectorRetriever

/-- Lookup in the dict comprehension `{r['id']: r for r in rs}`: the last
entry with a given id wins. -/
def dict_get (rs : List PyDoc) (id : String) : Option PyDoc :=
  rs.reverse.find? (fun r => r.id == id)

/-- States that `ids` is a legal iteration order of
`set(semantic_map.keys()) | set(keyword_map.keys())`. -/
def union_enum_ok (ids : List String) (semantic keywordr : List PyDoc) : Prop :=
  ids.Nodup ∧
  (∀ id ∈ ids, id ∈ semantic.map (fun r => r.id) ∨
    id ∈ keywordr.map (fun r => r.id)) ∧
  (∀ r ∈ semantic, r.id ∈ ids) ∧
  (∀ r ∈ keywordr, r.id ∈ ids)

/-- One pass of the combination loop for a document id: weighted score
over both maps (0 for an absent side), base doc from the semantic map
when present, annotated with both component scores. -/
def combined_entry (semantic keywordr : List PyDoc) (w : ℚ) (id : String) :
    Option PyDoc :=
  let ss := ((dict_get semantic id).map (fun r => r.score)).getD 0
  let ks := ((dict_get keywordr id).map (fun r => r.score)).getD 0
  (match dict_get semantic id with
    | some r => some r
    | none => dict_get keywordr id).map
    (fun r : PyDoc => { r with score := (1 - w) * ss + w * ks,
                               semantic_score := some ss,
                               keyword_score := some ks })

/-- Models `_combine_search_results`: build the per-id combined entries in set
iteration order, then sort descending by combined score (Python's stable
`list.sort`). -/
def combine_search_results (semantic keywordr : List PyDoc) (w : ℚ)
    (ids : List String) : List PyDoc :=
  sortDescBy (fun r => r.score) (ids.filterMap (combined_entry semantic keywordr w))

theorem dict_get_mem_isSome (rs : List PyDoc) (id : String)
    (h : id ∈ rs.map (fun r => r.id)) : ∃ r, dict_get rs id = some r := by
  rcases List.mem_map.mp h with ⟨r0, hr0, hid⟩
  have : ∃ x ∈ rs.reverse, (fun r : PyDoc => r.id == id) x = true :=
    ⟨r0, List.mem_reverse.mpr hr0, by simp [hid]⟩
  rcases Option.isSome_iff_exists.mp (List.find?_isSome.mpr this) with ⟨r, hr⟩
  exact ⟨r, hr⟩

theorem dict_get_id (rs : List PyDoc) (id : String) (r : PyDoc)
    (h : dict_get rs id = some r) : r.id = id := by
  have := List.find?_some h
  simpa using this

end VectorRetriever

/-- C7 (amended): for any legal set-iteration order of the id union, the
combined list carries, for every id, the score
`(1-w)·semantic + w·lexical` (an absent side contributing 0, both sides
recorded as annotations), and is sorted descending by combined score.
The relative order of tied documents follows the set-iteration order,
which Python leaves unspecified — not the original index. -/
theorem combine_results_claim (semantic keywordr : List PyDoc) (w : ℚ)
    (ids : List String)
    (h : VectorRetriever.union_enum_ok ids semantic keywordr) :
    (VectorRetriever.combine_search_results semantic keywordr w ids).Pairwise
      (fun a b => b.score ≤ a.score) ∧
    (∀ id ∈ ids,
      ∃ r, r ∈ VectorRetriever.combine_search_results semantic keywordr w ids ∧
        r.id = id ∧
        r.score = (1 - w) *
            (((VectorRetriever.dict_get semantic id).map (fun r => r.score)).getD 0) +
          w * (((VectorRetriever.dict_get keywordr id).map (fun r => r.score)).getD 0) ∧
        r.semantic_score =
          some (((VectorRetriever.dict_get semantic id).map (fun r => r.score)).getD 0) ∧
        r.keyword_score =
          some (((VectorRetriever.dict_get keywordr id).map (fun r => r.score)).getD 0)) := by
  constructor
  · exact pairwise_sortDescBy _ _
  · intro id hid
    have hbase : ∃ b, (match VectorRetriever.dict_get semantic id with
        | some r => some r
        | none => VectorRetriever.dict_get keywordr id) = some b ∧ b.id = id := by
      cases hs : VectorRetriever.dict_get semantic id with
      | some r => exact ⟨r, rfl, VectorRetriever.dict_get_id _ _ _ hs⟩
      | none =>
        rcases h.2.1 id hid with hmem | hmem
        · rcases VectorRetriever.dict_get_mem_isSome semantic id hmem with ⟨r, hr⟩
          rw [hs] at hr
          exact Option.noConfusion hr
        · rcases VectorRetriever.dict_get_mem_isSome keywordr id hmem with ⟨r, hr⟩
          exact ⟨r, hr, VectorRetriever.dict_get_id _ _ _ hr⟩
    rcases hbase with ⟨b, hb, hbid⟩
    refine ⟨{ b with
        score := (1 - w) *
            (((VectorRetriever.dict_get semantic id).map (fun r => r.score)).getD 0) +
          w * (((VectorRetriever.dict_get keywordr id).map (fun r => r.score)).getD 0),
        semantic_score :=
          some (((VectorRetriever.dict_get semantic id).map (fun r => r.score)).getD 0),
        keyword_score :=
          some (((VectorRetriever.dict_get keywordr id).map (fun r => r.score)).getD 0) },
      ?_, hbid, rfl, rfl, rfl⟩
    rw [VectorRetriever.combine_search_results, mem_sortDescBy]
    refine List.mem_filterMap.mpr ⟨id, hid, ?_⟩
    rw [VectorRetriever.combined_entry]
    rw [hb]
    rfl

/-- Witness for C7 (amended): a concrete run with two semantic documents
and an empty lexical list, iterated in the order `["b", "a"]`. -/
theorem combine_results_claim_witness :
    ∃ r, r ∈ VectorRetriever.combine_search_results
        [mkDoc "a" "" "" "" 1, mkDoc "b" "" "" "" 1] [] (3/10) ["b", "a"] ∧
      r.id = "a" ∧
      r.score = (1 - 3/10) *
          (((VectorRetriever.dict_get [mkDoc "a" "" "" "" 1, mkDoc "b" "" "" "" 1]
            "a").map (fun r => r.score)).getD 0) +
        (3/10) * (((VectorRetriever.dict_get ([] : List PyDoc) "a").map
          (fun r => r.score)).getD 0) ∧
      r.semantic_score =
        some (((VectorRetriever.dict_get [mkDoc "a" "" "" "" 1, mkDoc "b" "" "" "" 1]
          "a").map (fun r => r.score)).getD 0) ∧
      r.keyword_score =
        some (((VectorRetriever.dict_get ([] : List PyDoc) "a").map
          (fun r => r.score)).getD 0) :=
  (combine_results_claim [mkDoc "a" "" "" "" 1, mkDoc "b" "" "" "" 1] [] (3/10)
      ["b", "a"]
      ⟨by decide, by decide, by decide, by decide⟩).2 "a" (by decide)

/-- C7 counterexample: the claim "ties broken by original index" fails.
With semantic results `a` (index 0) and `b` (index 1), equal scores and an
empty lexical list, the legal set-iteration order `["b", "a"]` makes the
combined output list `b` before `a` — the opposite of the original index
order — because the stable sort only preserves the (unspecified) set
iteration order. -/
theorem combine_results_counterexample :
    VectorRetriever.union_enum_ok ["b", "a"]
      [mkDoc "a" "" "" "" 1, mkDoc "b" "" "" "" 1] [] ∧
    ([mkDoc "a" "" "" "" 1, mkDoc "b" "" "" "" 1].map (fun r => r.id)) =
      ["a", "b"] ∧
    (VectorRetriever.combine_search_results
        [mkDoc "a" "" "" "" 1, mkDoc "b" "" "" "" 1] [] (3/10) ["b", "a"]).map
      (fun r => r.id) = ["b", "a"] ∧
    (VectorRetriever.combine_search_results
        [mkDoc "a" "" "" "" 1, mkDoc "b" "" "" "" 1] [] (3/10) ["b", "a"]).map
      (fun r => r.score) = [7/10, 7/10] := by
  have hba : (("b" : String) == "a") = false := by decide
  have haa : (("a" : String) == "a") = true := by decide
  refine ⟨⟨by decide, by decide, by decide, by decide⟩, by decide, ?_, ?_⟩ <;>
    norm_num [hba, haa, VectorRetriever.combine_search_results,
      VectorRetriever.combined_entry, VectorRetriever.dict_get,
      sortDescBy, insertDescBy, mkDoc, List.filterMap_cons, List.find?_cons]

/-!
## C8 — Retrieval search never raises; empty-collection sentinel

Embedding of `VectorRetriever.search` (lines 89-137) of
`src/retriever/retriever.py`.  The fallible collaborators — the embedding
call, the FAISS path and the simple path — are oracle values of type
`Except`; an `Except.error` stands for the exception the Python code
would see at that point.  `search` itself returns `Except` so that "never
raises" is the provable statement that the result is always `Except.ok`.
-/

namespace VectorRetriever

/-- The `'retriever_error'` sentinel returned when no embedder loaded. -/
def retriever_error_sentinel : PyDoc :=
  ⟨"", "检索器未正确初始化", "", "retriever_error", 0, true, none, none, none, none⟩

/-- The `'empty_knowledge_base'` sentinel returned on an empty corpus. -/
def empty_kb_sentinel : PyDoc :=
  ⟨"", "知识库为空，请先构建索引", "", "empty_knowledge_base", 0, true,
    none, none, none, none⟩

/-- The `'search_error'` sentinel produced by the `except` branch. -/
def search_error_sentinel (e : String) : PyDoc :=
  ⟨"", "搜索过程中出现错误: " ++ e, "", "search_error", 0, true,
    none, none, none, none⟩

/-- Outcomes of the external collaborators used inside `search`. -/
structure SearchOracle where
  embed : Except String Unit
  faiss_result : Except String (List PyDoc)
  simple_result : Except String (List PyDoc)

/-- Models `_search_simple`: its own `try/except` turns any failure into `[]`. -/
def search_simple (o : SearchOracle) : List PyDoc :=
  match o.simple_result with
  | .ok rs => rs
  | .error _ => []

/-- Models `_search_faiss`: any failure falls back to `_search_simple`. -/
def search_faiss (o : SearchOracle) : List PyDoc :=
  match o.faiss_result with
  | .ok rs => rs
  | .error _ => search_simple o

/-- Models `VectorRetriever.search`: guard clauses for a missing embedder and an
empty corpus, then the embed-and-search body inside `try/except`. -/
def search (embedder_available : Bool) (documents : List PyDoc)
    (index_is_faiss : Bool) (o : SearchOracle) : Except String (List PyDoc) :=
  if !embedder_available then .ok [retriever_error_sentinel]
  else if documents.isEmpty then .ok [empty_kb_sentinel]
  else
    match o.embed with
    | .error e => .ok [search_error_sentinel e]
    | .ok _ => .ok (if index_is_faiss then search_faiss o else search_simple o)

end VectorRetriever

/-- C8: `search` never surfaces an exception — every oracle outcome,
including all-failing collaborators, yields `Except.ok` with a list — and
an empty document collection yields exactly one sentinel flagged
`error=True` with score 0 (the `empty_knowledge_base` marker when the
embedder is up, the `retriever_error` marker otherwise). -/
theorem retriever_search_claim (emb : Bool) (docs : List PyDoc)
    (faiss : Bool) (o : VectorRetriever.SearchOracle) :
    (∃ rs, VectorRetriever.search emb docs faiss o = Except.ok rs) ∧
    (docs = [] → ∃ s, VectorRetriever.search emb docs faiss o = Except.ok [s] ∧
      s.score = 0 ∧ s.error = true) ∧
    (emb = true → docs = [] → VectorRetriever.search emb docs faiss o =
      Except.ok [VectorRetriever.empty_kb_sentinel]) := by
  refine ⟨?_, ?_, ?_⟩
  · cases emb with
    | false => exact ⟨[VectorRetriever.retriever_error_sentinel], rfl⟩
    | true =>
      by_cases hd : docs.isEmpty
      · exact ⟨[VectorRetriever.empty_kb_sentinel],
          by simp [VectorRetriever.search, hd]⟩
      · cases he : o.embed with
        | error e =>
          exact ⟨[VectorRetriever.search_error_sentinel e],
            by simp [VectorRetriever.search, hd, he]⟩
        | ok u =>
          exact ⟨if faiss then VectorRetriever.search_faiss o
              else VectorRetriever.search_simple o,
            by simp [VectorRetriever.search, hd, he]⟩
  · intro hdocs
    subst hdocs
    cases emb with
    | false =>
      exact ⟨VectorRetriever.retriever_error_sentinel, rfl, rfl, rfl⟩
    | true =>
      exact ⟨VectorRetriever.empty_kb_sentinel, rfl, rfl, rfl⟩
  · intro hemb hdocs
    subst hemb
    subst hdocs
    rfl

/-- Witness for C8: with a live embedder, an empty corpus and all-failing
collaborators, `search` returns exactly one zero-score error sentinel. -/
theorem retriever_search_claim_witness :
    ∃ s, VectorRetriever.search true [] false
        ⟨Except.error "embed down", Except.error "faiss down",
          Except.error "simple down"⟩ = Except.ok [s] ∧
      s.score = 0 ∧ s.error = true :=
  (retriever_search_claim true [] false
    ⟨Except.error "embed down", Except.error "faiss down",
      Except.error "simple down"⟩).2.1 rfl

/-!
## C9 — Reranker failure semantics

Embedding of `JinaReranker.rerank` (lines 20-70), `_apply_reranking`
(lines 128-154), `SimpleReranker.rerank` / `_calculate_relevance_score`
(lines 196-289) and `HybridReranker.rerank` (lines 315-340) of
`src/reranker/reranker.py`.  The Jina HTTP call is an oracle: `.ok` with
the `(index, relevance_score)` pairs `_call_reranker_api` parses (the
caller filters out negative indices, so indices are naturals), `.error`
for an exception inside the `try` block; `_call_reranker_api` itself
swallows errors into `[]`, which the `.ok []` case covers.
-/

namespace Reranker

/-- Models `documents[:top_k] if top_k else documents` — both `None` and `0` are
falsy, so only a positive `top_k` truncates. -/
def truncate_topk (docs : List PyDoc) (top_k : Option ℕ) : List PyDoc :=
  match top_k with
  | some k => if k ≠ 0 then docs.take k else docs
  | none => docs

/-- Models `_apply_reranking`: sort the `(index, score)` pairs by score
descending (stable), then emit a copy of each in-range document annotated
with `rerank_score`/`original_score` and the new score. -/
def apply_reranking (documents : List PyDoc) (scored : List (ℕ × ℚ)) :
    List PyDoc :=
  (sortDescBy (fun p => p.2) scored).filterMap (fun p =>
    match documents[p.1]? with
    | some d => some { d with rerank_score := some p.2,
                              original_score := some d.score,
                              score := p.2 }
    | none => none)

/-- Models `JinaReranker.rerank`: disabled → plain truncation; empty input →
`[]`; API failure or empty score list → original documents truncated;
success → reranked annotated documents truncated. -/
def jina_rerank (enabled : Bool) (documents : List PyDoc)
    (api : Except String (List (ℕ × ℚ))) (top_k : Option ℕ) : List PyDoc :=
  if !enabled then truncate_topk documents top_k
  else if documents.isEmpty then []
  else
    match api with
    | .error _ => truncate_topk documents top_k
    | .ok scored =>
      if scored.isEmpty then truncate_topk documents top_k
      else truncate_topk (apply_reranking documents scored) top_k

/-- Substring test, models Python `needle in haystack` on strings. -/
def containsSub (hay needle : List Char) : Bool :=
  hay.tails.any (fun t => needle.isPrefixOf t)

/-- Models `SimpleReranker._calculate_relevance_score`: coverage, weighted
match score, capped density and length penalty combined with fixed
weights, clipped to 1. -/
def calculate_relevance_score (query_words : Finset String) (document : PyDoc) :
    ℚ :=
  let contentL := document.content.toList.map Char.toLower
  let titleL := document.title.toList.map Char.toLower
  let title_matches : ℕ :=
    (query_words.filter (fun w => containsSub titleL w.toList)).card
  let content_matches : ℕ :=
    (query_words.filter (fun w => containsSub contentL w.toList)).card
  let title_score : ℚ := (title_matches : ℚ) * 2
  let content_score : ℚ := (content_matches : ℚ)
  let length_penalty : ℚ :=
    if contentL.length < 50 then 0.5
    else if 2000 < contentL.length then 0.8
    else 1
  let coverage : ℚ :=
    if query_words.card ≠ 0 then
      ((title_matches + min content_matches query_words.card : ℕ) : ℚ) /
        (query_words.card : ℚ)
    else 0
  let word_count :=
    ((splitChars Char.isWhitespace contentL).filter (fun w => w ≠ [])).length
  let density : ℚ :=
    if 0 < word_count then (content_matches : ℚ) / (word_count : ℚ) else 0
  min (0.4 * coverage +
    0.3 * (title_score + content_score) / ((query_words.card : ℚ) + 1) +
    0.2 * min density 0.1 * 10 + 0.1 * length_penalty) 1

/-- Models `SimpleReranker.rerank`: annotate every document with the lexical
score, blend `0.7·new + 0.3·old` into `score`, sort descending, truncate. -/
def simple_rerank (query : String) (documents : List PyDoc)
    (top_k : Option ℕ) : List PyDoc :=
  truncate_topk
    (sortDescBy (fun d => d.score)
      (documents.map (fun d =>
        { d with original_score := some d.score,
                 rerank_score := some (calculate_relevance_score (pyWordSet query) d),
                 score := 0.7 * calculate_relevance_score (pyWordSet query) d +
                   0.3 * d.score })))
    top_k

/-- Models `HybridReranker.rerank`: prefer Jina when enabled, fall back to the
simple reranker only when the Jina result list is empty. -/
def hybrid_rerank (use_jina : Bool) (query : String) (documents : List PyDoc)
    (api : Except String (List (ℕ × ℚ))) (top_k : Option ℕ) : List PyDoc :=
  if use_jina then
    if (jina_rerank true documents api top_k).isEmpty then
      simple_rerank query documents top_k
    else jina_rerank true documents api top_k
  else simple_rerank query documents top_k

theorem truncate_topk_nil (top_k : Option ℕ) :
    truncate_topk [] top_k = [] := by
  cases top_k with
  | none => rfl
  | some k => by_cases hk : k = 0 <;> simp [truncate_topk, hk]

theorem truncate_topk_ne_nil (docs : List PyDoc) (top_k : Option ℕ)
    (h : docs ≠ []) : truncate_topk docs top_k ≠ [] := by
  cases top_k with
  | none => exact h
  | some k =>
    by_cases hk : k = 0
    · simp [truncate_topk, hk, h]
    · simp only [truncate_topk, if_pos hk]
      intro htake
      rcases List.exists_cons_of_ne_nil h with ⟨a, t, rfl⟩
      cases k with
      | zero => exact hk rfl
      | succ n => exact List.noConfusion htake

theorem mem_truncate_topk (docs : List PyDoc) (top_k : Option ℕ) (d : PyDoc)
    (h : d ∈ truncate_topk docs top_k) : d ∈ docs := by
  cases top_k with
  | none => exact h
  | some k =>
    by_cases hk : k = 0
    · simpa [truncate_topk, hk] using h
    · simp only [truncate_topk, if_pos hk] at h
      exact List.take_subset k docs h

end Reranker

/-- C9 (amended): the rerank boundary never surfaces an error — every
path returns a list — but an API failure makes `JinaReranker.rerank`
return the *original* documents (truncated, unannotated), and
`HybridReranker` falls back to the lexical reranker only when the Jina
result list is empty, which for a live API path happens exactly on empty
input; `rerank_score`/`original_score` annotations are guaranteed only on
the successful API path and on the lexical path. -/
theorem reranker_fallback_claim (query : String) (documents : List PyDoc)
    (api : Except String (List (ℕ × ℚ))) (top_k : Option ℕ) :
    (∀ e, api = Except.error e →
      Reranker.jina_rerank true documents api top_k =
        Reranker.truncate_topk documents top_k) ∧
    (∀ e, api = Except.error e → documents ≠ [] →
      Reranker.hybrid_rerank true query documents api top_k =
        Reranker.truncate_topk documents top_k) ∧
    (documents = [] →
      Reranker.hybrid_rerank true query documents api top_k = []) ∧
    (∀ d ∈ Reranker.simple_rerank query documents top_k,
      d.rerank_score.isSome ∧ d.original_score.isSome) ∧
    (∀ scored : List (ℕ × ℚ), ∀ d ∈ Reranker.apply_reranking documents scored,
      d.rerank_score.isSome ∧ d.original_score.isSome) := by
  refine ⟨?_, ?_, ?_, ?_, ?_⟩
  · intro e he
    subst he
    by_cases hd : documents.isEmpty
    · rw [List.isEmpty_iff] at hd
      subst hd
      rw [Reranker.truncate_topk_nil]
      rfl
    · simp [Reranker.jina_rerank, hd]
  · intro e he hne
    have hj : Reranker.jina_rerank true documents api top_k =
        Reranker.truncate_topk documents top_k := by
      subst he
      simp [Reranker.jina_rerank, List.isEmpty_iff, hne]
    have hnn : ¬ (Reranker.jina_rerank true documents api top_k).isEmpty := by
      rw [hj, List.isEmpty_iff]
      exact Reranker.truncate_topk_ne_nil documents top_k hne
    rw [Reranker.hybrid_rerank, if_pos rfl, if_neg hnn, hj]
  · intro hd
    subst hd
    have hj : Reranker.jina_rerank true [] api top_k = [] := by
      simp [Reranker.jina_rerank]
    rw [Reranker.hybrid_rerank, if_pos rfl, if_pos (by rw [hj]; rfl)]
    cases top_k with
    | none => rfl
    | some k =>
      by_cases hk : k = 0 <;>
        simp [Reranker.simple_rerank, Reranker.truncate_topk, sortDescBy, hk]
  · intro d hd
    have hd2 := Reranker.mem_truncate_topk _ _ _ hd
    rw [mem_sortDescBy] at hd2
    rcases List.mem_map.mp hd2 with ⟨d0, _, rfl⟩
    exact ⟨rfl, rfl⟩
  · intro scored d hd
    rcases List.mem_filterMap.mp hd with ⟨p, _, hp⟩
    cases hg : documents[p.1]? with
    | none => rw [hg] at hp; exact Option.noConfusion hp
    | some d0 =>
      rw [hg] at hp
      cases hp
      exact ⟨rfl, rfl⟩

/-- Witness for C9 (amended): a failing API on one document returns that
document unchanged and unannotated, while the lexical path annotates. -/
theorem reranker_fallback_claim_witness :
    Reranker.hybrid_rerank true "q" [mkDoc "d" "x" "" "s" (1/2)]
        (Except.error "fail") none =
      Reranker.truncate_topk [mkDoc "d" "x" "" "s" (1/2)] none :=
  (reranker_fallback_claim "q" [mkDoc "d" "x" "" "s" (1/2)]
    (Except.error "fail") none).2.1 "fail" rfl (by simp)

/-- C9 counterexample: the claim "reranker failure triggers transparent
fallback to the lexical method, candidates annotated with rerank_score
and original_score" fails.  On one document with a failing Jina API the
hybrid reranker returns the original document — not the lexical
reranker's output — and its `rerank_score` annotation is absent. -/
theorem reranker_fallback_counterexample :
    Reranker.hybrid_rerank true "q" [mkDoc "d" "x" "" "s" (1/2)]
        (Except.error "fail") none = [mkDoc "d" "x" "" "s" (1/2)] ∧
    (Reranker.hybrid_rerank true "q" [mkDoc "d" "x" "" "s" (1/2)]
        (Except.error "fail") none).map (fun d => d.rerank_score) = [none] ∧
    Reranker.hybrid_rerank true "q" [mkDoc "d" "x" "" "s" (1/2)]
        (Except.error "fail") none ≠
      Reranker.simple_rerank "q" [mkDoc "d" "x" "" "s" (1/2)] none := by
  have h1 : Reranker.hybrid_rerank true "q" [mkDoc "d" "x" "" "s" (1/2)]
      (Except.error "fail") none = [mkDoc "d" "x" "" "s" (1/2)] := rfl
  have h2 : Reranker.simple_rerank "q" [mkDoc "d" "x" "" "s" (1/2)] none =
      [{ mkDoc "d" "x" "" "s" (1/2) with
          original_score := some (1/2),
          rerank_score := some (Reranker.calculate_relevance_score
            (pyWordSet "q") (mkDoc "d" "x" "" "s" (1/2))),
          score := 0.7 * Reranker.calculate_relevance_score
            (pyWordSet "q") (mkDoc "d" "x" "" "s" (1/2)) + 0.3 * (1/2) }] := rfl
  refine ⟨h1, by rw [h1]; rfl, ?_⟩
  rw [h1, h2]
  intro h
  have := List.head_eq_of_cons_eq h
  have hro := congrArg (fun d => d.rerank_score) this
  simp [mkDoc] at hro

/-!
## C10 — Final-answer prompt formatting

Embedding of `FINAL_ANSWER_PROMPT` (lines 79-100 of
`src/planner/prompt_templates.py`), `DeepSeekPlanner.generate_final_answer`
(lines 237-269 of `src/planner/planner.py`) and
`MainAgent._generate_final_answer_from_context` (lines 395-447 of
`src/agent/main_agent.py`).  A Python format template is a list of
literal and `{field}` segments; `str.format(**kwargs)` raises
`KeyError(name)` at the first field with no matching keyword argument and
ignores extra keyword arguments.
-/

namespace Planner

inductive TmplSeg where
  | lit (s : String)
  | field (name : String)
deriving Repr, DecidableEq

/-- The `FINAL_ANSWER_PROMPT` template: its placeholders are `{query}`
and `{context}`. -/
def FINAL_ANSWER_PROMPT : List TmplSeg :=
  [.lit "基于以下信息，请生成你最有把握的最终答案，并给出推理过程以及相关的参考链接：\n\n原始问题: ",
   .field "query",
   .lit "\n已获得的信息: ",
   .field "context",
   .lit "\n\n严格按照以下输出格式输出，不要输出其它无关内容：\n<answer>简洁明确的答案</answer>\n<reasoning>详细的解释和推理过程</reasoning>\n<citations>多个链接用分号分隔，链接只能使用已获得的信息中出现的链接</citations>\n\n要求：\n1. 答案必须基于提供的证据\n2. 如果证据不足，请说明限制\n\n示例：\n输入: \"What is the capital of France?\"\n已获得的信息: \"France is a country in Europe with a population of 67 million people. Paris is the largest city and capital of France. 参考链接：https://en.wikipedia.org/wiki/France\"\n输出:\n<answer>巴黎是法国的首都</answer>\n<reasoning>根据已获得的信息，巴黎是法国的首都。</reasoning>\n<citations>https://en.wikipedia.org/wiki/France</citations>\n"]

/-- Python `template.format(**kwargs)`: substitute every field, raising
`KeyError(name)` (modelled as `Except.error name`) at a field absent from
the keyword arguments; extra keyword arguments are ignored. -/
def py_format : List TmplSeg → List (String × String) → Except String String
  | [], _ => .ok ""
  | .lit s :: rest, kwargs => (py_format rest kwargs).map (fun t => s ++ t)
  | .field n :: rest, kwargs =>
    match kwargs.find? (fun p => p.1 == n) with
    | none => .error n
    | some p => (py_format rest kwargs).map (fun t => p.2 ++ t)

/-- The keyword arguments `generate_final_answer` passes to `format`:
`query`, `search_results`, `reasoning_trace` — but not `context`. -/
def generate_final_answer_kwargs (query results_str trace_str : String) :
    List (String × String) :=
  [("query", query), ("search_results", results_str),
   ("reasoning_trace", trace_str)]

/-- Models `DeepSeekPlanner.generate_final_answer` up to its first fallible step:
format the prompt, then (on success) consult the language model.  The
downstream parse of the model response is irrelevant here because the
formatting step decides the claim. -/
def generate_final_answer (query results_str trace_str : String)
    (llm : String → Except String String) : Except String String :=
  (py_format FINAL_ANSWER_PROMPT
    (generate_final_answer_kwargs query results_str trace_str)).bind llm

end Planner

namespace MainAgent

structure AgentResult where
  answer : String
  error : Bool
deriving Repr, DecidableEq

/-- Models `str(e)` of a Python `KeyError`, which carries the quoted key. -/
def key_error_str (name : String) : String := "'" ++ name ++ "'"

/-- Models `MainAgent._generate_final_answer_from_context`: delegate to the
planner; on success run the citation-insertion continuation, on any
exception return the fallback answer flagged `error=True`. -/
def generate_final_answer_from_context (query results_str trace_str : String)
    (llm : String → Except String String)
    (on_success : String → AgentResult) : AgentResult :=
  match Planner.generate_final_answer query results_str trace_str llm with
  | .ok ans => on_success ans
  | .error e =>
    { answer := "基于收集的信息，无法生成完整答案。错误: " ++ key_error_str e,
      error := true }

end MainAgent

/-- C10: formatting `FINAL_ANSWER_PROMPT` with only `query`,
`search_results` and `reasoning_trace` raises `KeyError('context')`, so
`generate_final_answer` always fails before reaching the model and the
orchestrator's from-context path always returns the fallback answer with
`error=True`, for every input and every model behaviour. -/
theorem final_answer_keyerror_claim (query results_str trace_str : String)
    (llm : String → Except String String)
    (on_success : String → MainAgent.AgentResult) :
    Planner.py_format Planner.FINAL_ANSWER_PROMPT
      (Planner.generate_final_answer_kwargs query results_str trace_str) =
      Except.error "context" ∧
    Planner.generate_final_answer query results_str trace_str llm =
      Except.error "context" ∧
    (MainAgent.generate_final_answer_from_context query results_str trace_str
      llm on_success).error = true ∧
    (MainAgent.generate_final_answer_from_context query results_str trace_str
      llm on_success).answer =
      "基于收集的信息，无法生成完整答案。错误: 'context'" :=
  ⟨rfl, rfl, rfl, rfl⟩

/-!
## C2 — The reasoning loop is bounded

Embedding of `MainAgent._reasoning_loop` (lines 132-200 of
`src/agent/main_agent.py`).  The planner call, tool execution and
reflection of one iteration are an oracle indexed by the iteration
number: `plan` is either the parsed action plan or a thrown exception
(the loop's `except` branch), `observation` the tool output string
(`_execute_tool` swallows its own errors into a string), and
`reflection_sufficient` the reflection verdict (`_reflect_on_progress`
swallows its own errors into `is_sufficient=False`).

The Python `while self.current_iteration < self.max_iterations` loop is
written as structural recursion on `remaining = max_iterations -
current_iteration`: at entry `remaining = max_iterations` and
`current_iteration = 0`, every iteration increments the counter and
decrements `remaining`, so `remaining > 0` coincides with the `while`
guard.
-/

namespace MainAgent

structure ActionPlan where
  thought : String
  action : String
  action_input : String
  final_answer : String
deriving Repr, DecidableEq

/-- Outcome of `planner.plan_next_action` in one iteration: a parsed plan
(`is_complete` is the truthiness of `final_answer`, `needs_action` that of
`action and action_input`) or an exception caught by the loop's `except`. -/
inductive PlanOutcome where
  | thrown (msg : String)
  | parsed (plan : ActionPlan)

structure IterOracle where
  plan : PlanOutcome
  observation : String
  reflection_sufficient : Bool

/-- Models `Config.MAX_CONTEXT_LENGTH`. -/
def MAX_CONTEXT_LENGTH : ℕ := 8192

/-- Models `MainAgent._update_context`: append the action/observation line; when
the context exceeds the cap, keep the first 3 lines and last 10 lines
around an elision marker. -/
def update_context (ctx action observation : String) : String :=
  let updated := ctx ++ "\n执行了 " ++ action ++ "，结果: " ++ observation
  if MAX_CONTEXT_LENGTH < updated.length then
    String.intercalate "\n"
      ((updated.splitOn "\n").take 3 ++ ["...（中间内容省略）..."] ++
        (updated.splitOn "\n").drop ((updated.splitOn "\n").length - 10))
  else updated

/-- How `_reasoning_loop` terminates: with the planner's explicit final
answer (the `is_complete` path into `_generate_final_result`) or by
falling through to `_generate_final_answer_from_context`. -/
inductive LoopResult where
  | from_answer (answer : String)
  | from_context (ctx : String)
deriving Repr, DecidableEq

/-- The loop body of `_reasoning_loop`, one constructor case per Python
branch: planner exception (recover while `current < max_iterations - 1`,
else break), completion, action execution with the every-third-iteration
reflection break, and the no-action break.  Returns the result together
with the final value of `current_iteration`. -/
def reasoning_loop_aux (max_iterations : ℕ) (oracle : ℕ → IterOracle) :
    ℕ → ℕ → String → LoopResult × ℕ
  | 0, current, ctx => (.from_context ctx, current)
  | remaining + 1, current, ctx =>
    let it := current + 1
    match (oracle it).plan with
    | .thrown _ =>
      if it < max_iterations - 1 then
        reasoning_loop_aux max_iterations oracle remaining it ctx
      else (.from_context ctx, it)
    | .parsed p =>
      if p.final_answer ≠ "" then (.from_answer p.final_answer, it)
      else if p.action ≠ "" ∧ p.action_input ≠ "" then
        if it % 3 = 0 ∧ (oracle it).reflection_sufficient = true then
          (.from_context (update_context ctx p.action (oracle it).observation), it)
        else
          reasoning_loop_aux max_iterations oracle remaining it
            (update_context ctx p.action (oracle it).observation)
      else (.from_context ctx, it)

/-- Models `_reasoning_loop` from its initial state (`current_iteration = 0`). -/
def reasoning_loop (max_iterations : ℕ) (oracle : ℕ → IterOracle)
    (ctx : String) : LoopResult × ℕ :=
  reasoning_loop_aux max_iterations oracle max_iterations 0 ctx

theorem reasoning_loop_aux_bound (max_iterations : ℕ)
    (oracle : ℕ → IterOracle) :
    ∀ remaining current ctx,
      (reasoning_loop_aux max_iterations oracle remaining current ctx).2 ≤
        current + remaining := by
  intro remaining
  induction remaining with
  | zero => intro current ctx; simp [reasoning_loop_aux]
  | succ n ih =>
    intro current ctx
    rw [reasoning_loop_aux]
    cases (oracle (current + 1)).plan with
    | thrown msg =>
      by_cases h : current + 1 < max_iterations - 1
      · simp only [if_pos h]
        calc (reasoning_loop_aux max_iterations oracle n (current + 1) ctx).2 ≤
            current + 1 + n := ih (current + 1) ctx
          _ = current + (n + 1) := by omega
      · simp only [if_neg h]
        omega
    | parsed p =>
      by_cases hfin : p.final_answer ≠ ""
      · simp only [if_pos hfin]
        omega
      · simp only [if_neg hfin]
        by_cases hact : p.action ≠ "" ∧ p.action_input ≠ ""
        · simp only [if_pos hact]
          by_cases hrefl : (current + 1) % 3 = 0 ∧
              (oracle (current + 1)).reflection_sufficient = true
          · simp only [if_pos hrefl]
            omega
          · simp only [if_neg hrefl]
            calc (reasoning_loop_aux max_iterations oracle n (current + 1)
                  (update_context ctx p.action (oracle (current + 1)).observation)).2 ≤
                current + 1 + n := ih (current + 1) _
              _ = current + (n + 1) := by omega
        · simp only [if_neg hact]
          omega

end MainAgent

/-- C2: for every maximum iteration count, every sequence of planner
outcomes (including ones that never signal completion or always throw)
and every starting context, the reasoning loop executes at most
`max_iterations` iterations and terminates with a final result — either
the planner's explicit answer or the finalize-from-context path. -/
theorem reasoning_loop_claim (max_iterations : ℕ)
    (oracle : ℕ → MainAgent.IterOracle) (ctx : String) :
    (MainAgent.reasoning_loop max_iterations oracle ctx).2 ≤ max_iterations ∧
    ((∃ a, (MainAgent.reasoning_loop max_iterations oracle ctx).1 =
        MainAgent.LoopResult.from_answer a) ∨
     (∃ c, (MainAgent.reasoning_loop max_iterations oracle ctx).1 =
        MainAgent.LoopResult.from_context c)) := by
  constructor
  · have := MainAgent.reasoning_loop_aux_bound max_iterations oracle
      max_iterations 0 ctx
    simpa [MainAgent.reasoning_loop] using this
  · cases hr : (MainAgent.reasoning_loop max_iterations oracle ctx).1 with
    | from_answer a => exact Or.inl ⟨a, rfl⟩
    | from_context c => exact Or.inr ⟨c, rfl⟩

/-!
## C3 — Memory persistence at session end

Embedding of the persistence step of `MainAgent.execute_reasoning`
(lines 74-100 of `src/agent/main_agent.py`) against
`MemoryManager.add_memory_entry` (lines 66-109 of
`src/memory/memory_manager.py`).  Python binds keyword arguments before
any body runs: for a method with no defaults and no `**kwargs`, the call
succeeds exactly when the provided names are the declared parameter
names; otherwise it raises `TypeError`, which the `try/except` of
`execute_reasoning` turns into the degraded `error=True` result.
-/

namespace MainAgent

/-- The parameters of `MemoryManager.add_memory_entry(self, query,
context, final_answer)` — no defaults, no `**kwargs`. -/
def add_memory_entry_params : List String :=
  ["query", "context", "final_answer"]

/-- The keyword arguments `execute_reasoning` passes at lines 77-88. -/
def execute_reasoning_memory_kwargs : List String :=
  ["query", "context", "reasoning_steps", "search_results", "final_answer",
   "metadata"]

/-- Python keyword-argument binding for a method with only required
positional-or-keyword parameters: every provided name must be declared
and every declared parameter must be provided. -/
def kwargs_bind_ok (params kwargs : List String) : Bool :=
  kwargs.all (fun k => params.contains k) &&
  params.all (fun p => kwargs.contains p)

/-- The tail of `execute_reasoning` after the loop produced a final
answer: attempt `add_memory_entry(...)`; a successful bind would append
the entry and return the loop's result, a failed bind raises `TypeError`
into the top-level `except`, which returns the degraded answer and leaves
the store untouched. -/
def execute_reasoning_save (memory : List MemoryManager.MemoryEntry)
    (final_answer : String) (new_entry : MemoryManager.MemoryEntry) :
    AgentResult × List MemoryManager.MemoryEntry :=
  if kwargs_bind_ok add_memory_entry_params execute_reasoning_memory_kwargs then
    ({ answer := final_answer, error := false }, memory ++ [new_entry])
  else
    ({ answer := "推理过程中出现错误: add_memory_entry() got an unexpected keyword argument 'reasoning_steps'",
       error := true }, memory)

end MainAgent

/-- C3 (code bug): the keyword arguments of the `add_memory_entry` call in
`execute_reasoning` do not bind against the method's parameters
(`reasoning_steps` is passed but not declared), so the persistence step
raises `TypeError` for every completed session: the session ends in the
top-level error path with `error=True` and no `MemoryEntry` is ever
appended to the store — contradicting the claim that every completed
session persists an entry. -/
theorem memory_persistence_bug :
    MainAgent.kwargs_bind_ok MainAgent.add_memory_entry_params
      MainAgent.execute_reasoning_memory_kwargs = false ∧
    MainAgent.execute_reasoning_memory_kwargs.contains "reasoning_steps" = true ∧
    MainAgent.add_memory_entry_params.contains "reasoning_steps" = false ∧
    (∀ (memory : List MemoryManager.MemoryEntry) (final_answer : String)
        (new_entry : MemoryManager.MemoryEntry),
      (MainAgent.execute_reasoning_save memory final_answer new_entry).1.error =
        true ∧
      (MainAgent.execute_reasoning_save memory final_answer new_entry).2 =
        memory) := by
  refine ⟨by decide, by decide, by decide, ?_⟩
  intro memory final_answer new_entry
  have hbind : MainAgent.kwargs_bind_ok MainAgent.add_memory_entry_params
      MainAgent.execute_reasoning_memory_kwargs = false := by decide
  rw [MainAgent.execute_reasoning_save, hbind]
  exact ⟨rfl, rfl⟩
